import Mathlib

/-!
# Verification of the learn-revm execution engine

A shallow embedding, in Lean 4, of the parts of the learn-revm repository
that the specification talks about, together with theorems settling the
spec's claims against the code.

Conventions used throughout:
* Rust `u64` / `usize` / `U256` values are modelled as `Nat`; where the
  source relies on wrapping arithmetic the reduction modulo `2 ^ 64` is made
  explicit.
* A Rust `Vec` used as a stack (push/pop at the end) is modelled as a Lean
  `List` with the *top of the stack at the head*.
* Fallible Rust functions returning `Result<T, E>` are modelled as Lean
  functions returning `Except E T`; functions mutating `&mut self` return
  the updated structure.  An error return models the Rust early `return Err`
  path, which leaves the structure untouched.
* `HashMap<K, V>` is modelled as the function `K → Option V`.

The development is organised per source file:
* `Practice3` embeds `stage1-stack-machine/src/practice3_jump_safety.rs`
* `Practice4` embeds `stage1-stack-machine/src/practice4_gas_calculation.rs`
* `Stage2`  embeds `stage2-architecture/src/evm/call_stack.rs`,
  `stage2-architecture/src/evm/engine.rs` and the model types they use.
-/

set_option maxHeartbeats 1000000

namespace Practice3

/-- Error values of `practice3_jump_safety.rs`.  The source uses distinct
`&'static str` messages; each message is given its own constructor:
`stackOverflow` = "Stack overflow", `stackUnderflow` = "Stack underflow",
`addUnderflow` = "Stack underflow: ADD needs 2 operands",
`jumpUnderflow` = "Stack underflow: JUMP needs 1 operand (destination)",
`jumpiUnderflow` = "Stack underflow: JUMPI needs 2 operands (destination, condition)",
`invalidJump` = "Invalid jump destination",
`jumpOutOfBounds` = "Jump destination out of bounds". -/
inductive Err where
  | stackOverflow
  | stackUnderflow
  | addUnderflow
  | jumpUnderflow
  | jumpiUnderflow
  | invalidJump
  | jumpOutOfBounds
  deriving DecidableEq, Repr

/-- `SimpleStack` of `practice3_jump_safety.rs`: `data: Vec<u64>` with the
top of the stack at the head of the list. -/
structure SimpleStack where
  data : List Nat
  deriving DecidableEq, Repr

/-- `SimpleStack::push`: overflow at capacity 1000. -/
def SimpleStack.push (s : SimpleStack) (value : Nat) : Except Err SimpleStack :=
  if 1000 ≤ s.data.length then .error .stackOverflow
  else .ok ⟨value :: s.data⟩

/-- `SimpleStack::pop`. -/
def SimpleStack.pop (s : SimpleStack) : Except Err (Nat × SimpleStack) :=
  match s.data with
  | [] => .error .stackUnderflow
  | v :: rest => .ok (v, ⟨rest⟩)

/-- `SimpleStack::len`. -/
def SimpleStack.len (s : SimpleStack) : Nat := s.data.length

/-- The `Instruction` enum of `practice3_jump_safety.rs`. -/
inductive Instruction where
  | push (v : Nat)
  | add
  | jump
  | jumpi
  | jumpdest
  | stop
  deriving DecidableEq, Repr

/-- `JumpValidator`: the set of valid jump destinations, kept as the list of
positions inserted by the construction scan. -/
structure JumpValidator where
  valid_destinations : List Nat
  deriving DecidableEq, Repr

/-- The scan loop of `JumpValidator::new`: walk the instructions with their
program counter, collecting the positions of `JumpDest` markers
(the source tests `matches!(instruction, Instruction::JumpDest)`). -/
def scanDests : List Instruction → Nat → List Nat
  | [], _ => []
  | ins :: rest, pc =>
    (if ins = .jumpdest then [pc] else []) ++ scanDests rest (pc + 1)

/-- `JumpValidator::new`. -/
def JumpValidator.new (instructions : List Instruction) : JumpValidator :=
  ⟨scanDests instructions 0⟩

/-- `JumpValidator::is_valid_destination`. -/
def JumpValidator.is_valid_destination (v : JumpValidator) (pc : Nat) : Bool :=
  decide (pc ∈ v.valid_destinations)

/-- The `JumpEVM` machine of `practice3_jump_safety.rs`. -/
structure JumpEVM where
  stack : SimpleStack
  pc : Nat
  instructions : List Instruction
  gas_used : Nat
  jump_validator : JumpValidator
  deriving Repr

/-- `JumpEVM::new`. -/
def JumpEVM.new (instructions : List Instruction) : JumpEVM :=
  { stack := ⟨[]⟩
    pc := 0
    instructions := instructions
    gas_used := 0
    jump_validator := JumpValidator.new instructions }

/-- `JumpEVM::step`.  Returns `true` to continue, `false` to halt
(`pc` past the end, or `Stop`).  `ADD` uses `u64::wrapping_add`, hence the
reduction modulo `2 ^ 64`. -/
def JumpEVM.step (s : JumpEVM) : Except Err (Bool × JumpEVM) :=
  match s.instructions[s.pc]? with
  | none => .ok (false, s)
  | some instruction =>
    match instruction with
    | .push value =>
      match s.stack.push value with
      | .error e => .error e
      | .ok st =>
        .ok (true, { s with stack := st, gas_used := s.gas_used + 3, pc := s.pc + 1 })
    | .add =>
      if s.stack.len < 2 then .error .addUnderflow
      else
        match s.stack.pop with
        | .error e => .error e
        | .ok (operand2, st1) =>
          match st1.pop with
          | .error e => .error e
          | .ok (operand1, st2) =>
            match st2.push ((operand1 + operand2) % 2 ^ 64) with
            | .error e => .error e
            | .ok st3 =>
              .ok (true, { s with stack := st3, gas_used := s.gas_used + 3, pc := s.pc + 1 })
    | .jump =>
      if s.stack.len < 1 then .error .jumpUnderflow
      else
        match s.stack.pop with
        | .error e => .error e
        | .ok (destination, st) =>
          if ! s.jump_validator.is_valid_destination destination then .error .invalidJump
          else if s.instructions.length ≤ destination then .error .jumpOutOfBounds
          else .ok (true, { s with stack := st, pc := destination, gas_used := s.gas_used + 8 })
    | .jumpi =>
      if s.stack.len < 2 then .error .jumpiUnderflow
      else
        match s.stack.pop with
        | .error e => .error e
        | .ok (destination, st1) =>
          match st1.pop with
          | .error e => .error e
          | .ok (condition, st2) =>
            if condition ≠ 0 then
              if ! s.jump_validator.is_valid_destination destination then .error .invalidJump
              else if s.instructions.length ≤ destination then .error .jumpOutOfBounds
              else
                .ok (true, { s with stack := st2, pc := destination, gas_used := s.gas_used + 10 })
            else
              .ok (true, { s with stack := st2, pc := s.pc + 1, gas_used := s.gas_used + 10 })
    | .jumpdest =>
      .ok (true, { s with gas_used := s.gas_used + 1, pc := s.pc + 1 })
    | .stop => .ok (false, s)

end Practice3

namespace Practice4

/-- `SimpleMemory` of `practice4_gas_calculation.rs`:
`data: HashMap<u64, u64>` modelled as a partial function, and the current
memory size in bytes. -/
structure SimpleMemory where
  data : Nat → Option Nat
  size : Nat

/-- `SimpleMemory::new`. -/
def SimpleMemory.new : SimpleMemory := ⟨fun _ => none, 0⟩

/-- `SimpleMemory::memory_cost` (a method whose receiver is unused):
quadratic word pricing `words * 3 + words * words / 512`. -/
def memory_cost (words : Nat) : Nat :=
  words * 3 + words * words / 512

/-- `SimpleMemory::calculate_memory_expansion_gas` (receiver unused):
zero when not growing, otherwise the difference of the word costs. -/
def calculate_memory_expansion_gas (old_size new_size : Nat) : Nat :=
  if new_size ≤ old_size then 0
  else
    memory_cost ((new_size + 31) / 32) - memory_cost ((old_size + 31) / 32)

/-- `SimpleMemory::expand_to`: grows (32-byte aligned) when the requested
size exceeds the current size, and returns the expansion gas computed from
the old size to the new (aligned) size. -/
def SimpleMemory.expand_to (m : SimpleMemory) (new_size : Nat) : Nat × SimpleMemory :=
  let old_size := m.size
  if new_size > m.size then
    let aligned_size := (new_size + 31) / 32 * 32
    let m1 : SimpleMemory := { m with size := aligned_size }
    (calculate_memory_expansion_gas old_size m1.size, m1)
  else
    (calculate_memory_expansion_gas old_size m.size, m)

end Practice4

namespace Stage2

/-- Ethereum addresses (`ethereum_types::Address`, 20 bytes) are modelled as
byte lists. -/
abbrev Address := List Nat

/-- 256-bit words (`ethereum_types::U256`) are modelled as `Nat`; none of
the embedded code performs arithmetic on them. -/
abbrev U256 := Nat

/-- 256-bit hashes (`ethereum_types::H256`); `0` models `H256::zero()`,
the `Default` value. -/
abbrev H256 := Nat

/-- `AccountInfo` of `models/types.rs`. -/
structure AccountInfo where
  balance : U256
  nonce : Nat
  code_hash : H256
  code : Option (List Nat)
  deriving DecidableEq, Repr

/-- `Bytecode` of `models/types.rs` (the hash is computed by an external
keccak at construction; it is carried as plain data here). -/
structure Bytecode where
  bytes : List Nat
  hash : H256
  deriving DecidableEq, Repr

/-- `Log` of `models/types.rs`. -/
structure Log where
  address : Address
  topics : List H256
  data : List Nat
  deriving DecidableEq, Repr

/-- `StateChange` of `models/types.rs`. -/
inductive StateChange where
  | createAccount (address : Address) (info : AccountInfo)
  | deleteAccount (address : Address)
  | updateBalance (address : Address) (balance : U256)
  | updateNonce (address : Address) (nonce : Nat)
  | setCode (address : Address) (code : Bytecode)
  | updateStorage (address : Address) (index : U256) (value : U256)
  deriving DecidableEq, Repr

/-- The `Error` enum of `models/types.rs`. -/
inductive Error where
  | outOfGas
  | stackUnderflow
  | stackOverflow
  | invalidOpcode
  | invalidJump
  | callDepthExceeded
  | createCollision
  | outOfMemory
  | databaseError
  deriving DecidableEq, Repr

/-- `CallType` of `evm/call_stack.rs`. -/
inductive CallType where
  | call
  | callCode
  | delegateCall
  | staticCall
  | create
  | create2
  deriving DecidableEq, Repr

/-- `CallFrame` of `evm/call_stack.rs`. -/
structure CallFrame where
  caller : Address
  code_address : Address
  to_address : Address
  value : U256
  data : List Nat
  gas_limit : Nat
  gas_used : Nat
  read_only : Bool
  call_type : CallType
  depth : Nat
  return_data_offset : Nat
  return_data_size : Nat
  deriving DecidableEq, Repr

/-- `CallFrame::new_call`. -/
def CallFrame.new_call (caller to_addr : Address) (value : U256) (data : List Nat)
    (gas_limit : Nat) (call_type : CallType) (depth : Nat) : CallFrame :=
  { caller := caller
    code_address := to_addr
    to_address := to_addr
    value := value
    data := data
    gas_limit := gas_limit
    gas_used := 0
    read_only := call_type = CallType.staticCall
    call_type := call_type
    depth := depth
    return_data_offset := 0
    return_data_size := 0 }

/-- An entry of the `call_history: Vec<String>` debugging log of
`CallStack`.  The source formats these as strings; the embedding keeps the
formatted data instead. -/
inductive HistoryEntry where
  | pushEntry (depth : Nat) (call_type : CallType) (caller to_addr : Address) (gas_limit : Nat)
  | popEntry (depth : Nat) (call_type : CallType) (gas_used : Nat)
  deriving DecidableEq, Repr

/-- `CallStack` of `evm/call_stack.rs`; the top frame is the head of
`frames`. -/
structure CallStack where
  frames : List CallFrame
  current_depth : Nat
  max_depth : Nat
  call_history : List HistoryEntry
  record_history : Bool

/-- `CallStack::new`. -/
def CallStack.new (max_depth : Nat) : CallStack :=
  { frames := []
    current_depth := 0
    max_depth := max_depth
    call_history := []
    record_history := false }

/-- `CallStack::push_frame`: depth-limit check, then the frame's depth is
overwritten with the stack's current depth before the frame is pushed and
the depth incremented.  The error return leaves the stack untouched. -/
def CallStack.push_frame (st : CallStack) (frame : CallFrame) : Except Error CallStack :=
  if st.current_depth ≥ st.max_depth then .error .callDepthExceeded
  else
    let frame1 := { frame with depth := st.current_depth }
    let st1 :=
      if st.record_history then
        { st with call_history := st.call_history ++
            [HistoryEntry.pushEntry st.current_depth frame1.call_type frame1.caller
              frame1.to_address frame1.gas_limit] }
      else st
    .ok { st1 with frames := frame1 :: st1.frames,
                   current_depth := st1.current_depth + 1 }

/-- `CallStack::pop_frame` (`current_depth` decreases with
`saturating_sub`, which is `Nat` subtraction). -/
def CallStack.pop_frame (st : CallStack) : Option (CallFrame × CallStack) :=
  match st.frames with
  | [] => none
  | frame :: rest =>
    let st1 := { st with frames := rest, current_depth := st.current_depth - 1 }
    let st2 :=
      if st1.record_history then
        { st1 with call_history := st1.call_history ++
            [HistoryEntry.popEntry frame.depth frame.call_type frame.gas_used] }
      else st1
    some (frame, st2)

/-- `CallStack::current_frame` (`frames.last()`, i.e. the top frame). -/
def CallStack.current_frame (st : CallStack) : Option CallFrame :=
  st.frames.head?

/-- `CallStack::depth`. -/
def CallStack.depth (st : CallStack) : Nat := st.current_depth

/-- `CallStack::is_in_static_context`: true when any frame on the stack,
not just the top, is read-only. -/
def CallStack.is_in_static_context (st : CallStack) : Bool :=
  st.frames.any (fun frame => frame.read_only)

/-- The per-depth journal `HashMap<usize, Vec<StateChange>>`. -/
abbrev Journal := Nat → Option (List StateChange)

/-- `HashMap::insert`. -/
def Journal.insert (j : Journal) (k : Nat) (v : List StateChange) : Journal :=
  fun d => if d = k then some v else j d

/-- `HashMap::remove` (the removed value is discarded by every caller). -/
def Journal.remove (j : Journal) (k : Nat) : Journal :=
  fun d => if d = k then none else j d

/-- `CallManager` of `evm/call_stack.rs`. -/
structure CallManager where
  stack : CallStack
  return_data : List Nat
  state_changes : Journal
  logs : List Log

/-- `CallManager::new`. -/
def CallManager.new (max_depth : Nat) : CallManager :=
  { stack := CallStack.new max_depth
    return_data := []
    state_changes := fun _ => none
    logs := [] }

/-- `CallManager::begin_call`: reads `frame.depth` (the caller-supplied
value) *before* pushing, then opens an empty journal bucket under that
key. -/
def CallManager.begin_call (m : CallManager) (frame : CallFrame) : Except Error CallManager :=
  let depth := frame.depth
  match m.stack.push_frame frame with
  | .error e => .error e
  | .ok st => .ok { m with stack := st,
                           state_changes := m.state_changes.insert depth [] }

/-- `CallManager::rollback_state_changes`: removes the bucket for the given
depth (the source only logs the removed records; nothing is applied). -/
def CallManager.rollback_state_changes (m : CallManager) (depth : Nat) : CallManager :=
  { m with state_changes := m.state_changes.remove depth }

/-- `CallManager::end_call`: pops the frame; on success installs the given
return data, on failure rolls back (removes) the popped depth's bucket and
clears the return data; finally the popped depth's bucket entry is
removed. -/
def CallManager.end_call (m : CallManager) (success : Bool) (return_data : List Nat) :
    Option CallFrame × CallManager :=
  match m.stack.pop_frame with
  | none => (none, m)
  | some (frame, st) =>
    let depth := frame.depth
    let m1 := { m with stack := st }
    let m2 :=
      if success then { m1 with return_data := return_data }
      else
        let m1f := m1.rollback_state_changes depth
        { m1f with return_data := [] }
    (some frame, { m2 with state_changes := m2.state_changes.remove depth })

/-- `CallManager::record_state_change`: appends to the current (top)
frame's depth bucket; silently a no-op when no frame is active. -/
def CallManager.record_state_change (m : CallManager) (change : StateChange) : CallManager :=
  match m.stack.current_frame with
  | some current_frame =>
    let depth := current_frame.depth
    { m with state_changes :=
        m.state_changes.insert depth (((m.state_changes depth).getD []) ++ [change]) }
  | none => m

/-- `CallManager::add_log`: fails with `InvalidOpcode` in a static context,
otherwise appends the log. -/
def CallManager.add_log (m : CallManager) (log : Log) : Except Error CallManager :=
  if m.stack.is_in_static_context then .error .invalidOpcode
  else .ok { m with logs := m.logs ++ [log] }

/-- `CallManager::check_permissions`: consults only the current (top)
frame; `"modify_state"` and `"emit_log"` are rejected when that frame is
read-only. -/
def CallManager.check_permissions (m : CallManager) (operation : String) : Except Error Unit :=
  match m.stack.current_frame with
  | some frame =>
    if operation = "modify_state" ∧ frame.read_only = true then .error .invalidOpcode
    else if operation = "emit_log" ∧ frame.read_only = true then .error .invalidOpcode
    else .ok ()
  | none => .ok ()

/-- The manager state used to refute C1: `begin_call` on a fresh manager of
a frame constructed with (caller-supplied) depth 1. -/
def c1_manager : Except Error CallManager :=
  (CallManager.new 10).begin_call (CallFrame.new_call [1] [2] 0 [] 10000 .call 1)

/-- The concrete post-`begin_call` state for the C1 witness (caller-supplied
depth 0 matching the stack's current depth). -/
def c1_amended_m1 : CallManager :=
  match (CallManager.new 10).begin_call (CallFrame.new_call [1] [2] 0 [] 10000 .call 0) with
  | .ok m1 => m1
  | .error _ => CallManager.new 10

/-- `Machine` of `evm/engine.rs`: transient per-call execution state. -/
structure Machine where
  pc : Nat
  stack : List U256
  memory : List Nat
  return_data : List Nat
  gas : Nat
  deriving DecidableEq, Repr

/-- `Machine::new`. -/
def Machine.new (gas : Nat) : Machine :=
  { pc := 0, stack := [], memory := [], return_data := [], gas := gas }

/-- `Machine::push` (hard-coded 1024 stack limit). -/
def Machine.push (m : Machine) (value : U256) : Except Error Machine :=
  if 1024 ≤ m.stack.length then .error .stackOverflow
  else .ok { m with stack := value :: m.stack }

/-- `Machine::pop`. -/
def Machine.pop (m : Machine) : Except Error (U256 × Machine) :=
  match m.stack with
  | [] => .error .stackUnderflow
  | v :: rest => .ok (v, { m with stack := rest })

/-- `Vec::resize(n, 0)` on the byte vector: truncates when shrinking,
pads with zero bytes when growing. -/
def listResize (l : List Nat) (n : Nat) : List Nat :=
  if n ≤ l.length then l.take n else l ++ List.replicate (n - l.length) 0

/-- `Machine::expand_memory`: when `offset + size` exceeds the current
memory length, resize to that requirement rounded up to the next 32-byte
boundary; always succeeds. -/
def Machine.expand_memory (m : Machine) (offset size : Nat) : Except Error Machine :=
  let required_size := offset + size
  if required_size > m.memory.length then
    .ok { m with memory := listResize m.memory ((required_size + 31) / 32 * 32) }
  else
    .ok m

/-- `Machine::memory_read`: fails with `OutOfMemory` when the window
exceeds the current memory size (`&self`: the machine is untouched);
otherwise returns the bytes `memory[offset..offset + size]`. -/
def Machine.memory_read (m : Machine) (offset size : Nat) : Except Error (List Nat) :=
  if offset + size > m.memory.length then .error .outOfMemory
  else .ok ((m.memory.drop offset).take size)

/-- `Machine::memory_write`: expands, then copies the data over
`memory[offset..offset + data.len()]`. -/
def Machine.memory_write (m : Machine) (offset : Nat) (data : List Nat) : Except Error Machine :=
  match m.expand_memory offset data.length with
  | .error e => .error e
  | .ok m1 =>
    .ok { m1 with memory :=
      m1.memory.take offset ++ data ++ m1.memory.drop (offset + data.length) }

/-- `Machine::use_gas`. -/
def Machine.use_gas (m : Machine) (gas : Nat) : Except Error Machine :=
  if m.gas < gas then .error .outOfGas
  else .ok { m with gas := m.gas - gas }

/-- The compile-time constants of the `Spec` trait (`spec/mod.rs`) that the
embedded engine paths consult.  The remaining trait constants (storage gas
prices, feature flags, the other limits, precompile table) are unused by
`EVM::transact` and its callees. -/
structure Spec where
  NAME : String
  GAS_CALL : Nat
  GAS_CREATE : Nat
  GAS_CODE_DEPOSIT : Nat
  STACK_LIMIT : Nat
  MAX_CODE_SIZE : Nat

/-- The `Berlin` instantiation of those constants. -/
def Berlin : Spec :=
  { NAME := "Berlin"
    GAS_CALL := 700
    GAS_CREATE := 32000
    GAS_CODE_DEPOSIT := 200
    STACK_LIMIT := 1024
    MAX_CODE_SIZE := 0x6000 }

/-- The `Database` trait (`database/traits.rs`) at the interface the engine
consumes: `basic` and `code` (the trait's provided `code` method derives
from `basic`/`code_by_hash`, but the engine depends only on the two entry
points it calls).  `ε` is the backend's associated error type. -/
structure Database (ε : Type) where
  basic : Address → Except ε (Option AccountInfo)
  code : Address → Except ε Bytecode

/-- `Environment` of `models/types.rs`. -/
structure Environment where
  block_number : U256
  block_timestamp : U256
  block_difficulty : U256
  block_gas_limit : Nat
  chain_id : U256
  deriving DecidableEq, Repr

/-- The `Default` instance for `Environment`. -/
def Environment.default : Environment :=
  { block_number := 1
    block_timestamp := 1000000
    block_difficulty := 1000
    block_gas_limit := 30000000
    chain_id := 1 }

/-- `Transaction` of `models/types.rs` (the source's `to` field is named
`to_addr` here because `to` is a reserved token in Lean). -/
structure Transaction where
  caller : Address
  to_addr : Option Address
  value : U256
  data : List Nat
  gas_limit : Nat
  gas_price : U256
  deriving DecidableEq, Repr

/-- `ExecutionResult` of `models/types.rs`. -/
structure ExecutionResult where
  success : Bool
  gas_used : Nat
  return_data : List Nat
  logs : List Log
  deriving DecidableEq, Repr

/-- The `EVM<SPEC, DB>` engine of `evm/engine.rs` (the zero-sized
`PhantomData<SPEC>` marker becomes an explicit `Spec` argument to the
execution functions). -/
structure EVM (ε : Type) where
  database : Database ε
  env : Environment
  machine : Machine

/-- `EVM::new` (gas is set at execution time). -/
def EVM.new {ε : Type} (database : Database ε) (env : Environment) : EVM ε :=
  { database := database, env := env, machine := Machine.new 0 }

/-- `u64::to_be_bytes`. -/
def u64_be_bytes (n : Nat) : List Nat :=
  [n / 2 ^ 56 % 256, n / 2 ^ 48 % 256, n / 2 ^ 40 % 256, n / 2 ^ 32 % 256,
   n / 2 ^ 24 % 256, n / 2 ^ 16 % 256, n / 2 ^ 8 % 256, n % 256]

/-- `EVM::calculate_create_address`: the source's placeholder derivation,
XOR-ing each caller byte with a byte of the big-endian nonce. -/
def calculate_create_address (caller : Address) (nonce : Nat) : Address :=
  (List.range 20).map (fun i =>
    Nat.xor (caller.getD i 0) ((u64_be_bytes nonce).getD (i % 8) 0))

/-- `EVM::execute_call`.  Mutations of `&mut self` are threaded through the
returned `EVM`, also on the error paths (the machine keeps the gas debited
before the fault). -/
def execute_call {ε : Type} (S : Spec) (e : EVM ε) (caller to_addr : Address)
    (value : U256) (data : List Nat) : EVM ε × Except Error (List Nat) :=
  match e.machine.use_gas S.GAS_CALL with
  | .error err => (e, .error err)
  | .ok mach =>
    let e1 : EVM ε := { e with machine := mach }
    match e1.database.basic to_addr with
    | .error _ => (e1, .error .databaseError)
    | .ok account =>
      match account with
      | some acc =>
        if acc.code_hash ≠ 0 then
          match e1.database.code to_addr with
          | .error _ => (e1, .error .databaseError)
          | .ok code =>
            if code.bytes ≠ [] then (e1, .ok [0x42, 0x00])
            else (e1, .ok [])
        else (e1, .ok [])
      | none => (e1, .ok [])

/-- `EVM::execute_create`. -/
def execute_create {ε : Type} (S : Spec) (e : EVM ε) (caller : Address)
    (value : U256) (init_code : List Nat) : EVM ε × Except Error (List Nat) :=
  match e.machine.use_gas S.GAS_CREATE with
  | .error err => (e, .error err)
  | .ok mach =>
    let e1 : EVM ε := { e with machine := mach }
    if init_code.length > S.MAX_CODE_SIZE then (e1, .error .outOfMemory)
    else
      let contract_address := calculate_create_address caller 1
      let deploy_cost := init_code.length * S.GAS_CODE_DEPOSIT
      match e1.machine.use_gas deploy_cost with
      | .error err => (e1, .error err)
      | .ok mach2 =>
        let e2 : EVM ε := { e1 with machine := mach2 }
        (e2, .ok contract_address)

/-- `EVM::transact`: sets the machine gas to the transaction's limit,
applies the defensive stack-limit precondition, dispatches on `tx.to`, and
packages either outcome of the execution path as an `ExecutionResult` with
`gas_used = gas_limit - remaining gas`. -/
def transact {ε : Type} (S : Spec) (e : EVM ε) (tx : Transaction) :
    EVM ε × Except Error ExecutionResult :=
  let e0 : EVM ε := { e with machine := { e.machine with gas := tx.gas_limit } }
  if e0.machine.stack.length > S.STACK_LIMIT then (e0, .error .stackOverflow)
  else
    let step : EVM ε × Except Error (List Nat) :=
      match tx.to_addr with
      | some to_addr => execute_call S e0 tx.caller to_addr tx.value tx.data
      | none => execute_create S e0 tx.caller tx.value tx.data
    match step with
    | (e1, .ok return_data) =>
      (e1, .ok { success := true
                 gas_used := tx.gas_limit - e1.machine.gas
                 return_data := return_data
                 logs := [] })
    | (e1, .error _) =>
      (e1, .ok { success := false
                 gas_used := tx.gas_limit - e1.machine.gas
                 return_data := []
                 logs := [] })

/-- A backend whose `basic` read always faults, to drive `transact` down a
failure path for the C7 witness. -/
def c7_db : Database Unit :=
  { basic := fun _ => .error ()
    code := fun _ => .ok { bytes := [], hash := 0 } }

/-- The engine instance of the C7 witness. -/
def c7_evm : EVM Unit := EVM.new c7_db Environment.default

/-- The transaction of the C7 witness: a call with a 100000 gas limit. -/
def c7_tx : Transaction :=
  { caller := [1], to_addr := some [2], value := 0, data := []
    gas_limit := 100000, gas_price := 0 }

/-- An abstract sequence of the `Machine` memory operations, for stating
the C10 growth invariant over arbitrary interleavings of `expand_memory`
and `memory_write`. -/
inductive MemOp where
  | expand (offset size : Nat)
  | write (offset : Nat) (data : List Nat)

/-- Apply one memory operation.  Both operations return `Ok` on every
input in the source; the error fallback (returning the machine unchanged)
is unreachable. -/
def applyOp (m : Machine) (op : MemOp) : Machine :=
  match op with
  | .expand offset size =>
    match m.expand_memory offset size with
    | .ok m1 => m1
    | .error _ => m
  | .write offset data =>
    match m.memory_write offset data with
    | .ok m1 => m1
    | .error _ => m

/-- Apply a sequence of memory operations in order. -/
def applyOps (m : Machine) : List MemOp → Machine
  | [] => m
  | op :: rest => applyOps (applyOp m op) rest

end Stage2

namespace Practice3

/-- Characterisation of the scan: a position is collected exactly when the
instruction at the corresponding offset is `JumpDest`. -/
theorem mem_scanDests (l : List Instruction) :
    ∀ base pc, pc ∈ scanDests l base ↔
      ∃ i, pc = base + i ∧ l[i]? = some .jumpdest := by
  induction l with
  | nil => intro base pc; simp [scanDests]
  | cons ins rest ih =>
    intro base pc
    by_cases h : ins = .jumpdest
    · subst h
      simp only [scanDests, ite_true, eq_self_iff_true, List.mem_append,
        List.mem_singleton, ih (base + 1) pc]
      constructor
      · rintro (rfl | ⟨i, rfl, hi⟩)
        · exact ⟨0, by omega, by simp⟩
        · exact ⟨i + 1, by omega, by simpa using hi⟩
      · rintro ⟨i, rfl, hi⟩
        cases i with
        | zero => exact Or.inl (by omega)
        | succ j => exact Or.inr ⟨j, by omega, by simpa using hi⟩
    · simp only [scanDests, if_neg h, List.nil_append, ih (base + 1) pc]
      constructor
      · rintro ⟨i, rfl, hi⟩
        exact ⟨i + 1, by omega, by simpa using hi⟩
      · rintro ⟨i, rfl, hi⟩
        cases i with
        | zero =>
          exfalso
          exact h (by simpa using hi)
        | succ j => exact ⟨j, by omega, by simpa using hi⟩

/-- A destination is in the validator built from a program exactly when the
program has a `JumpDest` marker at that position. -/
theorem is_valid_destination_new (instructions : List Instruction) (pc : Nat) :
    (JumpValidator.new instructions).is_valid_destination pc = true ↔
      instructions[pc]? = some .jumpdest := by
  simp [JumpValidator.new, JumpValidator.is_valid_destination,
    mem_scanDests instructions 0 pc]

/-- C2: semantics of the jump instructions of `JumpEVM::step`.
An unconditional `Jump` pops one destination; when the destination is not a
position marked `JumpDest` (which covers every out-of-range destination,
since only in-range positions are ever marked) it fails with the
invalid-jump error; on success it sets the program counter to the
destination and charges the jump gas (8).  A conditional `JumpI` pops a
destination and a condition; when the condition is nonzero the same
validation applies and the higher price (10) is charged; when the condition
is zero no jump occurs, the program counter advances by one and the popped
destination is discarded without validation, so an invalid destination does
not fail in that case. -/
theorem jump_step_semantics (s : JumpEVM)
    (hv : s.jump_validator = JumpValidator.new s.instructions) :
    (∀ d rest, s.instructions[s.pc]? = some .jump → s.stack.data = d :: rest →
      (s.instructions[d]? ≠ some .jumpdest → s.step = .error .invalidJump) ∧
      (s.instructions[d]? = some .jumpdest →
        s.step = .ok (true,
          { s with stack := ⟨rest⟩, pc := d, gas_used := s.gas_used + 8 }))) ∧
    (∀ d c rest, s.instructions[s.pc]? = some .jumpi →
        s.stack.data = d :: c :: rest →
      (c ≠ 0 → s.instructions[d]? ≠ some .jumpdest →
        s.step = .error .invalidJump) ∧
      (c ≠ 0 → s.instructions[d]? = some .jumpdest →
        s.step = .ok (true,
          { s with stack := ⟨rest⟩, pc := d, gas_used := s.gas_used + 10 })) ∧
      (c = 0 →
        s.step = .ok (true,
          { s with stack := ⟨rest⟩, pc := s.pc + 1, gas_used := s.gas_used + 10 }))) := by
  constructor
  · intro d rest hpc hs
    have hlen : ¬ s.stack.len < 1 := by
      simp [SimpleStack.len, hs]
    have hpop : s.stack.pop = .ok (d, ⟨rest⟩) := by
      simp [SimpleStack.pop, hs]
    constructor
    · intro hnd
      have hval : s.jump_validator.is_valid_destination d = false := by
        rw [hv]
        cases hb : (JumpValidator.new s.instructions).is_valid_destination d with
        | false => rfl
        | true => exact absurd ((is_valid_destination_new _ _).mp hb) hnd
      simp [JumpEVM.step, hpc, hlen, hpop, hval]
    · intro hd
      have hval : s.jump_validator.is_valid_destination d = true := by
        rw [hv]; exact (is_valid_destination_new _ _).mpr hd
      have hin : ¬ s.instructions.length ≤ d := by
        intro hle
        rw [List.getElem?_eq_none hle] at hd
        exact Option.noConfusion hd
      simp [JumpEVM.step, hpc, hlen, hpop, hval, hin]
  · intro d c rest hpc hs
    have hlen : ¬ s.stack.len < 2 := by
      simp [SimpleStack.len, hs]
    have hpop : s.stack.pop = .ok (d, ⟨c :: rest⟩) := by
      simp [SimpleStack.pop, hs]
    have hpop2 : SimpleStack.pop ⟨c :: rest⟩ = .ok (c, ⟨rest⟩) := by
      simp [SimpleStack.pop]
    refine ⟨?_, ?_, ?_⟩
    · intro hc hnd
      have hval : s.jump_validator.is_valid_destination d = false := by
        rw [hv]
        cases hb : (JumpValidator.new s.instructions).is_valid_destination d with
        | false => rfl
        | true => exact absurd ((is_valid_destination_new _ _).mp hb) hnd
      simp [JumpEVM.step, hpc, hlen, hpop, hpop2, hc, hval]
    · intro hc hd
      have hval : s.jump_validator.is_valid_destination d = true := by
        rw [hv]; exact (is_valid_destination_new _ _).mpr hd
      have hin : ¬ s.instructions.length ≤ d := by
        intro hle
        rw [List.getElem?_eq_none hle] at hd
        exact Option.noConfusion hd
      simp [JumpEVM.step, hpc, hlen, hpop, hpop2, hc, hval, hin]
    · intro hc
      subst hc
      simp [JumpEVM.step, hpc, hlen, hpop, hpop2]

/-- Witness for C2 at concrete inputs: a `Jump` whose popped destination (3)
is not a `JumpDest` fails with the invalid-jump error, and a `JumpI` whose
popped condition is zero succeeds, advancing the program counter past the
`JumpI`, even though its popped destination (99) is invalid. -/
theorem jump_step_semantics_witness :
    JumpEVM.step
      { stack := ⟨[3]⟩, pc := 1,
        instructions := [.push 3, .jump, .stop, .push 42, .stop],
        gas_used := 3,
        jump_validator := JumpValidator.new [.push 3, .jump, .stop, .push 42, .stop] }
      = .error .invalidJump ∧
    JumpEVM.step
      { stack := ⟨[99, 0]⟩, pc := 2,
        instructions := [.push 0, .push 99, .jumpi, .stop],
        gas_used := 6,
        jump_validator := JumpValidator.new [.push 0, .push 99, .jumpi, .stop] }
      = .ok (true,
        { stack := ⟨[]⟩, pc := 3,
          instructions := [.push 0, .push 99, .jumpi, .stop],
          gas_used := 16,
          jump_validator := JumpValidator.new [.push 0, .push 99, .jumpi, .stop] }) := by
  constructor
  · have h := jump_step_semantics
      { stack := ⟨[3]⟩, pc := 1,
        instructions := [.push 3, .jump, .stop, .push 42, .stop],
        gas_used := 3,
        jump_validator := JumpValidator.new [.push 3, .jump, .stop, .push 42, .stop] }
      rfl
    exact (h.1 3 [] (by decide) rfl).1 (by decide)
  · have h := jump_step_semantics
      { stack := ⟨[99, 0]⟩, pc := 2,
        instructions := [.push 0, .push 99, .jumpi, .stop],
        gas_used := 6,
        jump_validator := JumpValidator.new [.push 0, .push 99, .jumpi, .stop] }
      rfl
    exact (h.2 99 0 [] (by decide) rfl).2.2 rfl

end Practice3

namespace Practice4

theorem memory_cost_mono {w1 w2 : Nat} (h : w1 ≤ w2) :
    memory_cost w1 ≤ memory_cost w2 := by
  unfold memory_cost
  have h1 : w1 * 3 ≤ w2 * 3 := Nat.mul_le_mul_right 3 h
  have h2 : w1 * w1 ≤ w2 * w2 := Nat.mul_le_mul h h
  exact Nat.add_le_add h1 (Nat.div_le_div_right h2)

theorem calculate_self (x : Nat) : calculate_memory_expansion_gas x x = 0 := by
  simp [calculate_memory_expansion_gas]

/-- Growing charges exactly the difference of the word costs: the
subtraction in the source never truncates. -/
theorem calculate_exact (old_size new_size : Nat) (h : old_size ≤ new_size) :
    memory_cost ((old_size + 31) / 32) + calculate_memory_expansion_gas old_size new_size
      = memory_cost ((new_size + 31) / 32) := by
  unfold calculate_memory_expansion_gas
  by_cases hle : new_size ≤ old_size
  · rw [if_pos hle, le_antisymm h hle]
    omega
  · rw [if_neg hle]
    have hw : (old_size + 31) / 32 ≤ (new_size + 31) / 32 := by omega
    have hc := memory_cost_mono hw
    omega

theorem aligned_words (n : Nat) : ((n + 31) / 32 * 32 + 31) / 32 = (n + 31) / 32 := by
  omega

/-- C6: memory-expansion pricing.  (1) The incremental charge is zero when
not growing; (2) when growing it is exactly
`cost(words(new)) − cost(words(old))` (the sum with the old cost recovers
the new cost, so the charge is the non-negative cost difference);
(3) the stateful `expand_to` is path-independent: for `a ≤ b`, expanding to
`a` and then to `b` charges in total exactly what expanding directly to `b`
charges; (4) the total charge from a fresh memory to `size` is
`cost(ceil(size / 32))` with `cost(words) = 3·words + floor(words²/512)`. -/
theorem memory_expansion_pricing :
    (∀ old_size new_size : Nat, new_size ≤ old_size →
      calculate_memory_expansion_gas old_size new_size = 0) ∧
    (∀ old_size new_size : Nat, old_size ≤ new_size →
      memory_cost ((old_size + 31) / 32) + calculate_memory_expansion_gas old_size new_size
        = memory_cost ((new_size + 31) / 32)) ∧
    (∀ (m : SimpleMemory) (a b : Nat), a ≤ b →
      (m.expand_to a).1 + ((m.expand_to a).2.expand_to b).1 = (m.expand_to b).1) ∧
    (∀ size : Nat, (SimpleMemory.new.expand_to size).1 = memory_cost ((size + 31) / 32)) := by
  refine ⟨?_, calculate_exact, ?_, ?_⟩
  · intro old_size new_size h
    simp [calculate_memory_expansion_gas, h]
  · intro m a b hab
    by_cases ha : a > m.size
    · have hb : b > m.size := by omega
      have haa : a ≤ (a + 31) / 32 * 32 := by omega
      by_cases hb2 : b > (a + 31) / 32 * 32
      · simp only [SimpleMemory.expand_to, if_pos ha, if_pos hb, if_pos hb2]
        have e1 := calculate_exact m.size ((a + 31) / 32 * 32) (by omega)
        have e2 := calculate_exact ((a + 31) / 32 * 32) ((b + 31) / 32 * 32) (by omega)
        have e3 := calculate_exact m.size ((b + 31) / 32 * 32) (by omega)
        rw [aligned_words a] at e1 e2
        rw [aligned_words b] at e2 e3
        omega
      · have halign : (a + 31) / 32 * 32 = (b + 31) / 32 * 32 := by omega
        simp only [SimpleMemory.expand_to, if_pos ha, if_pos hb, if_neg hb2]
        rw [calculate_self, halign]
        omega
    · have h0 : (m.expand_to a).1 = 0 := by
        simp [SimpleMemory.expand_to, if_neg ha, calculate_self]
      have h1 : (m.expand_to a).2 = m := by
        simp [SimpleMemory.expand_to, if_neg ha]
      rw [h0, h1, Nat.zero_add]
  · intro size
    by_cases h : size > 0
    · have : (SimpleMemory.new.expand_to size).1
          = calculate_memory_expansion_gas 0 ((size + 31) / 32 * 32) := by
        simp [SimpleMemory.expand_to, SimpleMemory.new, h]
      rw [this]
      have e := calculate_exact 0 ((size + 31) / 32 * 32) (by omega)
      rw [aligned_words size] at e
      have h31 : (0 + 31) / 32 = 0 := by omega
      rw [h31] at e
      have hc0 : memory_cost 0 = 0 := by simp [memory_cost]
      omega
    · have hz : size = 0 := by omega
      subst hz
      simp [SimpleMemory.expand_to, SimpleMemory.new, calculate_self, memory_cost]

/-- Witness for C6 at the spec's concrete sizes: expanding 0 → 64 → 128
bytes charges the same total gas as expanding 0 → 128 directly (12 gas). -/
theorem memory_expansion_pricing_witness :
    (64 ≤ 128 ∧
      (SimpleMemory.new.expand_to 64).1 + ((SimpleMemory.new.expand_to 64).2.expand_to 128).1
        = (SimpleMemory.new.expand_to 128).1) ∧
    (SimpleMemory.new.expand_to 128).1 = 12 :=
  ⟨⟨by norm_num, memory_expansion_pricing.2.2.1 SimpleMemory.new 64 128 (by norm_num)⟩, rfl⟩

end Practice4

namespace Stage2

/-- C3: `CallStack::push_frame` at or above the depth limit always fails
with `CallDepthExceeded` before any mutation (the embedding's error return
carries no modified stack, mirroring the source's early `return Err`);
below the limit it succeeds, overwrites the frame's depth with the stack's
current depth, pushes the frame, and increments the depth by one. -/
theorem push_frame_depth_limit (st : CallStack) (frame : CallFrame) :
    (st.max_depth ≤ st.current_depth →
      st.push_frame frame = .error .callDepthExceeded) ∧
    (st.current_depth < st.max_depth →
      ∃ st1, st.push_frame frame = .ok st1 ∧
        st1.frames = { frame with depth := st.current_depth } :: st.frames ∧
        st1.current_depth = st.current_depth + 1 ∧
        st1.max_depth = st.max_depth) := by
  constructor
  · intro h
    have hge : st.current_depth ≥ st.max_depth := h
    simp [CallStack.push_frame, if_pos hge]
  · intro h
    have hn : ¬ st.current_depth ≥ st.max_depth := by omega
    simp only [CallStack.push_frame, if_neg hn]
    refine ⟨_, rfl, ?_, ?_, ?_⟩ <;> by_cases hr : st.record_history <;> simp [hr]

/-- Witness for C3: a stack with limit 0 rejects any push with
`CallDepthExceeded`; a fresh stack with limit 2 accepts a frame constructed
with (ignored) depth 7, storing it with depth 0 and moving to depth 1. -/
theorem push_frame_depth_limit_witness :
    ((CallStack.new 0).push_frame (CallFrame.new_call [1] [2] 0 [] 100 .call 0)
      = .error .callDepthExceeded) ∧
    ((CallStack.new 2).push_frame (CallFrame.new_call [1] [2] 0 [] 100 .call 7)
        |>.map (fun st1 => (st1.frames.map CallFrame.depth, st1.current_depth)))
      = .ok ([0], 1) := by
  constructor
  · exact (push_frame_depth_limit (CallStack.new 0)
      (CallFrame.new_call [1] [2] 0 [] 100 .call 0)).1 (by decide)
  · obtain ⟨st1, he, hf, hd, hm⟩ := (push_frame_depth_limit (CallStack.new 2)
      (CallFrame.new_call [1] [2] 0 [] 100 .call 7)).2 (by decide)
    rw [he]
    simp [Except.map, hf, hd, CallStack.new]

/-- C4: `CallManager::add_log` fails with `InvalidOpcode` and appends
nothing whenever any frame anywhere on the stack is read-only (regardless
of the top frame's own flag), and appends the log when no frame is
read-only. -/
theorem add_log_static_context (m : CallManager) (log : Log) :
    ((∃ f ∈ m.stack.frames, f.read_only = true) →
      m.add_log log = .error .invalidOpcode) ∧
    ((∀ f ∈ m.stack.frames, f.read_only = false) →
      m.add_log log = .ok { m with logs := m.logs ++ [log] }) := by
  constructor
  · intro h
    have hs : m.stack.is_in_static_context = true := by
      rw [CallStack.is_in_static_context, List.any_eq_true]
      exact h
    simp [CallManager.add_log, hs]
  · intro h
    have hs : m.stack.is_in_static_context = false := by
      rw [CallStack.is_in_static_context, List.any_eq_false]
      intro f hf
      simp [h f hf]
    simp [CallManager.add_log, hs]

/-- Witness for C4: a manager whose only read-only frame is an *ancestor*
(the top frame is an ordinary call) still rejects `add_log`; a manager with
a single ordinary frame appends the log. -/
theorem add_log_static_context_witness :
    (CallManager.add_log
      { stack := { frames := [CallFrame.new_call [3] [4] 0 [] 500 .call 1,
                              CallFrame.new_call [1] [2] 0 [] 1000 .staticCall 0],
                   current_depth := 2, max_depth := 10,
                   call_history := [], record_history := false },
        return_data := [], state_changes := fun _ => none, logs := [] }
      { address := [4], topics := [], data := [] }
      = .error .invalidOpcode) ∧
    ((CallManager.add_log
      { stack := { frames := [CallFrame.new_call [1] [2] 0 [] 1000 .call 0],
                   current_depth := 1, max_depth := 10,
                   call_history := [], record_history := false },
        return_data := [], state_changes := fun _ => none, logs := [] }
      { address := [2], topics := [], data := [] }).map (fun m1 => m1.logs))
      = .ok [{ address := [2], topics := [], data := [] }] := by
  constructor
  · exact (add_log_static_context _ _).1
      ⟨CallFrame.new_call [1] [2] 0 [] 1000 .staticCall 0, by simp, by decide⟩
  · rw [(add_log_static_context _ _).2 (by decide)]
    rfl

/-- C5: `CallManager::end_call` on a non-empty stack pops the top frame.
On failure it removes that frame's journal bucket entirely (applying none
of its records: every other bucket and the log list are untouched) and
clears the return-data buffer; on success it installs the given return
data as the manager's buffer. -/
theorem end_call_journal (m : CallManager) (rd : List Nat) (frame : CallFrame)
    (rest : List CallFrame) (h : m.stack.frames = frame :: rest) :
    ((m.end_call false rd).1 = some frame ∧
     (m.end_call false rd).2.stack.frames = rest ∧
     (m.end_call false rd).2.state_changes frame.depth = none ∧
     (∀ d, d ≠ frame.depth → (m.end_call false rd).2.state_changes d = m.state_changes d) ∧
     (m.end_call false rd).2.return_data = [] ∧
     (m.end_call false rd).2.logs = m.logs) ∧
    ((m.end_call true rd).1 = some frame ∧
     (m.end_call true rd).2.stack.frames = rest ∧
     (m.end_call true rd).2.return_data = rd) := by
  by_cases hr : m.stack.record_history <;>
    refine ⟨⟨?_, ?_, ?_, ?_, ?_, ?_⟩, ?_, ?_, ?_⟩ <;>
      simp [CallManager.end_call, CallStack.pop_frame, h, hr,
        CallManager.rollback_state_changes, Journal.remove] <;>
      intro d hd <;> simp [hd]

/-- Witness for C5 on a concrete manager holding one frame, a non-empty
bucket for it, a non-empty bucket for another depth, a log and stale
return data. -/
theorem end_call_journal_witness :
    (CallManager.end_call
      { stack := { frames := [CallFrame.new_call [1] [2] 0 [] 1000 .call 0],
                   current_depth := 1, max_depth := 10,
                   call_history := [], record_history := false },
        return_data := [7],
        state_changes := Journal.insert
          (Journal.insert (fun _ => none) 5 []) 0 [.deleteAccount [9]],
        logs := [{ address := [2], topics := [], data := [] }] }
      false [4, 4]).2.state_changes 0 = none ∧
    (CallManager.end_call
      { stack := { frames := [CallFrame.new_call [1] [2] 0 [] 1000 .call 0],
                   current_depth := 1, max_depth := 10,
                   call_history := [], record_history := false },
        return_data := [7],
        state_changes := Journal.insert
          (Journal.insert (fun _ => none) 5 []) 0 [.deleteAccount [9]],
        logs := [{ address := [2], topics := [], data := [] }] }
      false [4, 4]).2.state_changes 5 = some [] ∧
    (CallManager.end_call
      { stack := { frames := [CallFrame.new_call [1] [2] 0 [] 1000 .call 0],
                   current_depth := 1, max_depth := 10,
                   call_history := [], record_history := false },
        return_data := [7],
        state_changes := Journal.insert
          (Journal.insert (fun _ => none) 5 []) 0 [.deleteAccount [9]],
        logs := [{ address := [2], topics := [], data := [] }] }
      false [4, 4]).2.return_data = [] ∧
    (CallManager.end_call
      { stack := { frames := [CallFrame.new_call [1] [2] 0 [] 1000 .call 0],
                   current_depth := 1, max_depth := 10,
                   call_history := [], record_history := false },
        return_data := [7],
        state_changes := Journal.insert
          (Journal.insert (fun _ => none) 5 []) 0 [.deleteAccount [9]],
        logs := [{ address := [2], topics := [], data := [] }] }
      true [4, 4]).2.return_data = [4, 4] := by
  have h := end_call_journal
    { stack := { frames := [CallFrame.new_call [1] [2] 0 [] 1000 .call 0],
                 current_depth := 1, max_depth := 10,
                 call_history := [], record_history := false },
      return_data := [7],
      state_changes := Journal.insert
        (Journal.insert (fun _ => none) 5 []) 0 [.deleteAccount [9]],
      logs := [{ address := [2], topics := [], data := [] }] }
    [4, 4] (CallFrame.new_call [1] [2] 0 [] 1000 .call 0) [] rfl
  refine ⟨h.1.2.2.1, ?_, h.1.2.2.2.2.1, h.2.2.2⟩
  have h5 := h.1.2.2.2.1 5 (by decide)
  rw [h5]
  rfl

/-- C9: `CallManager::check_permissions` inspects only the current (top)
frame: when the top frame is not read-only every operation succeeds even if
a deeper frame is read-only (the frames below the top are unconstrained
here); it also succeeds for every operation when the stack is empty, and
for every operation other than "modify_state" and "emit_log" even when the
top frame is read-only. -/
theorem check_permissions_top_frame (m : CallManager) :
    (m.stack.frames = [] →
      ∀ operation, m.check_permissions operation = .ok ()) ∧
    (∀ frame rest, m.stack.frames = frame :: rest → frame.read_only = false →
      ∀ operation, m.check_permissions operation = .ok ()) ∧
    (∀ operation, operation ≠ "modify_state" → operation ≠ "emit_log" →
      m.check_permissions operation = .ok ()) := by
  refine ⟨?_, ?_, ?_⟩
  · intro h operation
    simp [CallManager.check_permissions, CallStack.current_frame, h]
  · intro frame rest h hro operation
    simp [CallManager.check_permissions, CallStack.current_frame, h, hro]
  · intro operation h1 h2
    cases hc : m.stack.current_frame with
    | none => simp [CallManager.check_permissions, hc]
    | some frame => simp [CallManager.check_permissions, hc, h1, h2]

/-- Witness for C9: with a read-only ancestor below a non-read-only top
frame, "modify_state" is still permitted; with a read-only top frame, the
operation "balance" is permitted. -/
theorem check_permissions_top_frame_witness :
    (CallManager.check_permissions
      { stack := { frames := [CallFrame.new_call [3] [4] 0 [] 500 .call 1,
                              CallFrame.new_call [1] [2] 0 [] 1000 .staticCall 0],
                   current_depth := 2, max_depth := 10,
                   call_history := [], record_history := false },
        return_data := [], state_changes := fun _ => none, logs := [] }
      "modify_state" = .ok ()) ∧
    (CallManager.check_permissions
      { stack := { frames := [CallFrame.new_call [1] [2] 0 [] 1000 .staticCall 0],
                   current_depth := 1, max_depth := 10,
                   call_history := [], record_history := false },
        return_data := [], state_changes := fun _ => none, logs := [] }
      "balance" = .ok ()) := by
  constructor
  · exact (check_permissions_top_frame _).2.1
      (CallFrame.new_call [3] [4] 0 [] 500 .call 1)
      [CallFrame.new_call [1] [2] 0 [] 1000 .staticCall 0] rfl (by decide) _
  · exact (check_permissions_top_frame _).2.2 "balance" (by decide) (by decide)

/-- Counterexample to C1 as stated.  The pushed frame receives the
stack-assigned depth 0, but `begin_call` opens the journal bucket under the
caller-supplied depth 1 (key 0 holds no bucket), and `end_call` — which
removes the bucket keyed by the popped frame's assigned depth 0 — leaves
the bucket that `begin_call` opened (key 1) in place, whether the call
succeeds or fails. -/
theorem begin_call_bucket_counterexample :
    c1_manager.map (fun m1 => m1.stack.frames.map CallFrame.depth) = .ok [0] ∧
    c1_manager.map (fun m1 => m1.state_changes 0) = .ok none ∧
    c1_manager.map (fun m1 => m1.state_changes 1) = .ok (some []) ∧
    c1_manager.map (fun m1 => (m1.end_call true []).2.state_changes 1) = .ok (some []) ∧
    c1_manager.map (fun m1 => (m1.end_call false []).2.state_changes 1) = .ok (some []) :=
  ⟨rfl, rfl, rfl, rfl, rfl⟩

/-- C1 (amended): `begin_call` pushes the frame and opens an empty journal
bucket keyed by the depth stored in the frame by its *constructor* (read
before the stack overwrites it with the assigned depth); only when that
supplied depth equals the stack's current depth — as in the normal
call-entry protocol — is the opened bucket the one that `end_call` for the
frame later removes. -/
theorem begin_call_bucket_amended (m : CallManager) (frame : CallFrame)
    (m1 : CallManager) (h : m.begin_call frame = .ok m1) :
    m1.state_changes frame.depth = some [] ∧
    m1.stack.frames = { frame with depth := m.stack.current_depth } :: m.stack.frames ∧
    (frame.depth = m.stack.current_depth →
      ∀ success rd, (m1.end_call success rd).2.state_changes frame.depth = none) := by
  by_cases hge : m.stack.current_depth ≥ m.stack.max_depth
  · simp [CallManager.begin_call, CallStack.push_frame, if_pos hge] at h
  · by_cases hr : m.stack.record_history <;>
      simp only [CallManager.begin_call, CallStack.push_frame, if_neg hge, hr,
        if_pos, if_neg, ite_true, ite_false, Except.ok.injEq] at h <;>
      subst h <;>
      refine ⟨by simp [Journal.insert], by simp, ?_⟩ <;>
      · intro hd success rd
        cases success <;>
          simp [CallManager.end_call, CallStack.pop_frame, hr,
            CallManager.rollback_state_changes, Journal.remove, hd]

/-- Witness for the amended C1: with supplied depth 0 equal to the stack's
depth, the bucket is opened at key 0 and `end_call` removes exactly it. -/
theorem begin_call_bucket_amended_witness :
    c1_amended_m1.state_changes 0 = some [] ∧
    (c1_amended_m1.end_call true [3]).2.state_changes 0 = none := by
  have h := begin_call_bucket_amended (CallManager.new 10)
    (CallFrame.new_call [1] [2] 0 [] 10000 .call 0) c1_amended_m1 rfl
  exact ⟨h.1, h.2.2 rfl true [3]⟩

/-- C8: `Machine::memory_read` fails with `OutOfMemory` exactly when the
requested window `offset + len` exceeds the current memory size, and
performs no implicit expansion (`memory_read` borrows the machine
immutably: the embedding returns only the bytes, never a modified
machine); in range it returns the `len` bytes starting at `offset`. -/
theorem memory_read_window (m : Machine) (offset size : Nat) :
    (m.memory.length < offset + size →
      m.memory_read offset size = .error .outOfMemory) ∧
    (offset + size ≤ m.memory.length →
      ∃ bytes, m.memory_read offset size = .ok bytes ∧
        bytes.length = size ∧
        ∀ i, i < size → bytes[i]? = m.memory[offset + i]?) := by
  constructor
  · intro h
    have hp : offset + size > m.memory.length := h
    simp [Machine.memory_read, if_pos hp]
  · intro h
    have hn : ¬ offset + size > m.memory.length := by omega
    refine ⟨(m.memory.drop offset).take size, ?_, ?_, ?_⟩
    · simp [Machine.memory_read, if_neg hn]
    · simp only [List.length_take, List.length_drop]
      omega
    · intro i hi
      rw [List.getElem?_take_of_lt hi, List.getElem?_drop]

/-- Witness for C8 on a machine with 4 bytes of memory: reading 3 bytes at
offset 2 fails with `OutOfMemory`, reading 2 bytes at offset 1 returns 2
bytes. -/
theorem memory_read_window_witness :
    (Machine.memory_read
      { pc := 0, stack := [], memory := [1, 2, 3, 4], return_data := [], gas := 0 } 2 3
      = .error .outOfMemory) ∧
    ((Machine.memory_read
      { pc := 0, stack := [], memory := [1, 2, 3, 4], return_data := [], gas := 0 } 1 2).map
        List.length = .ok 2) := by
  constructor
  · exact (memory_read_window
      { pc := 0, stack := [], memory := [1, 2, 3, 4], return_data := [], gas := 0 } 2 3).1
      (by decide)
  · obtain ⟨bytes, he, hlen, hidx⟩ := (memory_read_window
      { pc := 0, stack := [], memory := [1, 2, 3, 4], return_data := [], gas := 0 } 1 2).2
      (by decide)
    rw [he]
    simp [Except.map, hlen]

/-- C7: `EVM::transact` (under the engine's standing precondition that the
fresh machine's stack is within the profile limit — `EVM::new` starts with
an empty stack and no engine path ever grows `machine.stack`) always
returns an `ExecutionResult`, never an escalated error: an internal failure
of the dispatched execution path becomes `success = false` with empty
return data, a success becomes `success = true`, and in both cases
`gas_used` is the transaction's gas limit minus the machine's remaining gas
at the moment execution stopped. -/
theorem transact_execution_result {ε : Type} (S : Spec) (e : EVM ε) (tx : Transaction)
    (h : e.machine.stack.length ≤ S.STACK_LIMIT) :
    ∃ res : ExecutionResult,
      (transact S e tx).2 = .ok res ∧
      res.gas_used = tx.gas_limit - (transact S e tx).1.machine.gas ∧
      (res.success = false → res.return_data = []) ∧
      (∀ to1, tx.to_addr = some to1 →
        res.success = (execute_call S
          { e with machine := { e.machine with gas := tx.gas_limit } }
          tx.caller to1 tx.value tx.data).2.isOk) ∧
      (tx.to_addr = none →
        res.success = (execute_create S
          { e with machine := { e.machine with gas := tx.gas_limit } }
          tx.caller tx.value tx.data).2.isOk) := by
  have hn : ¬ e.machine.stack.length > S.STACK_LIMIT := by omega
  cases hto : tx.to_addr with
  | some to1 =>
    rcases hstep : execute_call S
        { e with machine := { e.machine with gas := tx.gas_limit } }
        tx.caller to1 tx.value tx.data with ⟨e1, r⟩
    cases r with
    | ok rd =>
      refine ⟨{ success := true, gas_used := tx.gas_limit - e1.machine.gas,
                return_data := rd, logs := [] }, ?_, ?_, ?_, ?_, ?_⟩
      · simp [transact, hn, hto, hstep]
      · simp [transact, hn, hto, hstep]
      · intro hfalse
        simp at hfalse
      · intro t1 ht1
        cases ht1
        rw [hstep]
        rfl
      · intro hnone
        cases hnone
    | error err =>
      refine ⟨{ success := false, gas_used := tx.gas_limit - e1.machine.gas,
                return_data := [], logs := [] }, ?_, ?_, ?_, ?_, ?_⟩
      · simp [transact, hn, hto, hstep]
      · simp [transact, hn, hto, hstep]
      · intro _
        rfl
      · intro t1 ht1
        cases ht1
        rw [hstep]
        rfl
      · intro hnone
        cases hnone
  | none =>
    rcases hstep : execute_create S
        { e with machine := { e.machine with gas := tx.gas_limit } }
        tx.caller tx.value tx.data with ⟨e1, r⟩
    cases r with
    | ok rd =>
      refine ⟨{ success := true, gas_used := tx.gas_limit - e1.machine.gas,
                return_data := rd, logs := [] }, ?_, ?_, ?_, ?_, ?_⟩
      · simp [transact, hn, hto, hstep]
      · simp [transact, hn, hto, hstep]
      · intro hfalse
        simp at hfalse
      · intro t1 ht1
        cases ht1
      · intro _
        rfl
    | error err =>
      refine ⟨{ success := false, gas_used := tx.gas_limit - e1.machine.gas,
                return_data := [], logs := [] }, ?_, ?_, ?_, ?_, ?_⟩
      · simp [transact, hn, hto, hstep]
      · simp [transact, hn, hto, hstep]
      · intro _
        rfl
      · intro t1 ht1
        cases ht1
      · intro _
        rfl

/-- Witness for C7: with a faulting backend, `transact` still returns an
`ExecutionResult` with `success = false`, empty return data, and
`gas_used = 700` — exactly the `GAS_CALL` debited before the database
fault (100000 − 99300). -/
theorem transact_execution_result_witness :
    ((transact Berlin c7_evm c7_tx).2).map
        (fun r => (r.success, r.gas_used, r.return_data)) = .ok (false, 700, []) := by
  obtain ⟨res, he, hgas, hfail, hcall, hcreate⟩ :=
    transact_execution_result Berlin c7_evm c7_tx (by decide)
  have hs : res.success = false := by
    rw [hcall [2] rfl]
    rfl
  have hg : res.gas_used = 700 := by
    rw [hgas]
    rfl
  rw [he]
  simp [Except.map, hs, hg, hfail hs]

/-- `Machine::expand_memory` when the window already fits: no change. -/
theorem expand_memory_fits (m : Machine) (offset size : Nat)
    (h : offset + size ≤ m.memory.length) :
    m.expand_memory offset size = .ok m := by
  have hn : ¬ offset + size > m.memory.length := by omega
  simp [Machine.expand_memory, if_neg hn]

/-- `Machine::expand_memory` when growing: the memory becomes the old bytes
followed by zeros, up to the requested size rounded to the next 32-byte
boundary. -/
theorem expand_memory_grows (m : Machine) (offset size : Nat)
    (h : m.memory.length < offset + size) :
    m.expand_memory offset size = .ok { m with
      memory :=
        m.memory ++ List.replicate ((offset + size + 31) / 32 * 32 - m.memory.length) 0 } := by
  have hp : offset + size > m.memory.length := h
  have ha : ¬ ((offset + size + 31) / 32 * 32 ≤ m.memory.length) := by omega
  simp [Machine.expand_memory, if_pos hp, listResize, if_neg ha]

/-- Behaviour of `Machine::memory_write`: always succeeds; the length stays
put when the window fits and otherwise becomes the 32-byte-aligned
requirement; every byte position beyond the old length and outside the
written window holds zero. -/
theorem memory_write_spec (m : Machine) (offset : Nat) (data : List Nat) :
    ∃ m1, m.memory_write offset data = .ok m1 ∧
      m1.memory.length =
        (if offset + data.length ≤ m.memory.length then m.memory.length
         else (offset + data.length + 31) / 32 * 32) ∧
      (∀ i, m.memory.length ≤ i → i < offset → m1.memory[i]? = some 0) ∧
      (∀ i, offset + data.length ≤ i → m.memory.length ≤ i →
        i < m1.memory.length → m1.memory[i]? = some 0) := by
  by_cases hfit : offset + data.length ≤ m.memory.length
  · have he := expand_memory_fits m offset data.length hfit
    refine ⟨{ m with memory :=
        m.memory.take offset ++ data ++ m.memory.drop (offset + data.length) },
      ?_, ?_, ?_, ?_⟩
    · simp [Machine.memory_write, he]
    · rw [if_pos hfit]
      simp only [List.length_append, List.length_take, List.length_drop]
      omega
    · intro i h1 h2
      omega
    · intro i h1 h2 h3
      exfalso
      simp only [List.length_append, List.length_take, List.length_drop] at h3
      omega
  · have hgrow : m.memory.length < offset + data.length := by omega
    have he := expand_memory_grows m offset data.length hgrow
    have hpadlen : (m.memory ++ List.replicate
        ((offset + data.length + 31) / 32 * 32 - m.memory.length) 0).length
        = (offset + data.length + 31) / 32 * 32 := by
      simp only [List.length_append, List.length_replicate]
      omega
    refine ⟨{ m with
        memory :=
          (m.memory ++ List.replicate
            ((offset + data.length + 31) / 32 * 32 - m.memory.length) 0).take offset
          ++ data
          ++ (m.memory ++ List.replicate
            ((offset + data.length + 31) / 32 * 32 - m.memory.length) 0).drop
              (offset + data.length) },
      ?_, ?_, ?_, ?_⟩
    · simp [Machine.memory_write, he]
    · rw [if_neg hfit]
      simp only [List.length_append, List.length_take, List.length_drop,
        List.length_replicate]
      omega
    · intro i h1 h2
      have htl : i < ((m.memory ++ List.replicate
          ((offset + data.length + 31) / 32 * 32 - m.memory.length) 0).take offset).length := by
        simp only [List.length_take, hpadlen]
        omega
      dsimp only
      rw [List.append_assoc, List.getElem?_append_left htl, List.getElem?_take_of_lt h2,
        List.getElem?_append_right h1, List.getElem?_replicate_of_lt (by omega)]
    · intro i h1 h2 h3
      dsimp only at h3 ⊢
      simp only [List.length_append, List.length_take, List.length_drop,
        List.length_replicate] at h3
      have hlt : ((m.memory ++ List.replicate
          ((offset + data.length + 31) / 32 * 32 - m.memory.length) 0).take offset).length ≤ i := by
        simp only [List.length_take, hpadlen]
        omega
      rw [List.append_assoc, List.getElem?_append_right hlt]
      have hlt2 : data.length ≤ i - ((m.memory ++ List.replicate
          ((offset + data.length + 31) / 32 * 32 - m.memory.length) 0).take offset).length := by
        simp only [List.length_take, hpadlen]
        omega
      rw [List.getElem?_append_right hlt2, List.getElem?_drop]
      have harg : offset + data.length +
          (i - ((m.memory ++ List.replicate
            ((offset + data.length + 31) / 32 * 32 - m.memory.length) 0).take offset).length
           - data.length) = i := by
        simp only [List.length_take, hpadlen]
        omega
      rw [harg, List.getElem?_append_right h2,
        List.getElem?_replicate_of_lt (by omega)]

/-- One memory operation keeps the length a multiple of 32 and never
shrinks it. -/
theorem applyOp_length (m : Machine) (op : MemOp) (hdvd : 32 ∣ m.memory.length) :
    32 ∣ (applyOp m op).memory.length ∧
      m.memory.length ≤ (applyOp m op).memory.length := by
  cases op with
  | expand offset size =>
    by_cases h : offset + size ≤ m.memory.length
    · simp only [applyOp, expand_memory_fits m offset size h]
      exact ⟨hdvd, le_rfl⟩
    · have hg : m.memory.length < offset + size := by omega
      simp only [applyOp, expand_memory_grows m offset size hg]
      constructor
      · simp only [List.length_append, List.length_replicate]
        have harith : m.memory.length +
            ((offset + size + 31) / 32 * 32 - m.memory.length)
            = (offset + size + 31) / 32 * 32 := by omega
        rw [harith]
        exact dvd_mul_left 32 ((offset + size + 31) / 32)
      · simp only [List.length_append, List.length_replicate]
        omega
  | write offset data =>
    obtain ⟨m1, he, hlen, _, _⟩ := memory_write_spec m offset data
    simp only [applyOp, he]
    rw [hlen]
    by_cases h : offset + data.length ≤ m.memory.length
    · rw [if_pos h]
      exact ⟨hdvd, le_rfl⟩
    · rw [if_neg h]
      exact ⟨dvd_mul_left 32 ((offset + data.length + 31) / 32), by omega⟩

/-- A sequence of memory operations keeps the length a multiple of 32 and
never shrinks it. -/
theorem applyOps_length (ops : List MemOp) :
    ∀ m : Machine, 32 ∣ m.memory.length →
      32 ∣ (applyOps m ops).memory.length ∧
        m.memory.length ≤ (applyOps m ops).memory.length := by
  induction ops with
  | nil =>
    intro m h
    exact ⟨h, le_rfl⟩
  | cons op rest ih =>
    intro m h
    have h1 := applyOp_length m op h
    have h2 := ih (applyOp m op) h1.1
    exact ⟨h2.1, le_trans h1.2 h2.2⟩

/-- C10: the machine's linear memory length is an invariant multiple of 32
and never decreases.  (1) `expand_memory` leaves the memory untouched when
the window fits, and otherwise grows it to the requested size rounded up to
the next 32-byte boundary, the new bytes zero-filled; (2) `memory_write`
always succeeds, with the same length behaviour, and every grown byte
outside the written window is zero; (3) any sequence of the two operations
starting from the empty memory (or any 32-byte-aligned state) keeps the
length a multiple of 32 and non-decreasing. -/
theorem memory_growth_invariant :
    (∀ (m : Machine) (offset size : Nat),
      (offset + size ≤ m.memory.length → m.expand_memory offset size = .ok m) ∧
      (m.memory.length < offset + size →
        m.expand_memory offset size = .ok { m with
          memory :=
            m.memory ++ List.replicate ((offset + size + 31) / 32 * 32 - m.memory.length) 0 })) ∧
    (∀ (m : Machine) (offset : Nat) (data : List Nat),
      ∃ m1, m.memory_write offset data = .ok m1 ∧
        m1.memory.length =
          (if offset + data.length ≤ m.memory.length then m.memory.length
           else (offset + data.length + 31) / 32 * 32) ∧
        (∀ i, m.memory.length ≤ i → i < offset → m1.memory[i]? = some 0) ∧
        (∀ i, offset + data.length ≤ i → m.memory.length ≤ i →
          i < m1.memory.length → m1.memory[i]? = some 0)) ∧
    (∀ (ops : List MemOp) (g : Nat),
      32 ∣ (applyOps (Machine.new g) ops).memory.length ∧
      (∀ m : Machine, 32 ∣ m.memory.length →
        32 ∣ (applyOps m ops).memory.length ∧
          m.memory.length ≤ (applyOps m ops).memory.length)) := by
  refine ⟨fun m offset size =>
      ⟨expand_memory_fits m offset size, expand_memory_grows m offset size⟩,
    memory_write_spec, ?_⟩
  intro ops g
  exact ⟨(applyOps_length ops (Machine.new g) (by simp [Machine.new])).1,
    applyOps_length ops⟩

/-- Witness for C10: expanding to 10 bytes and then writing two bytes at
offset 30 from a fresh machine ends with a memory of exactly 32 bytes —
a multiple of 32, and no smaller than the initial empty memory. -/
theorem memory_growth_invariant_witness :
    ((Machine.new 0).memory.length ≤
        (applyOps (Machine.new 0) [.expand 0 10, .write 30 [5, 5]]).memory.length ∧
      32 ∣ (applyOps (Machine.new 0) [.expand 0 10, .write 30 [5, 5]]).memory.length) ∧
    (applyOps (Machine.new 0) [.expand 0 10, .write 30 [5, 5]]).memory.length = 32 := by
  have h := (memory_growth_invariant.2.2 [.expand 0 10, .write 30 [5, 5]] 0).2
    (Machine.new 0) (by decide)
  exact ⟨⟨h.2, h.1⟩, rfl⟩

end Stage2
